/-
  Spec2Proof.lean — a verification development for the LiquidMoney ledger.

  Shallow embedding of the balance-consistency engine and backup codec of
  the LiquidMoney personal finance tracker:
    * src/database/db.ts       — schema (PRIMARY KEY, FK cascade delete)
    * src/database/queries.ts  — CRUD, domino balance logic, export/import
    * backupService.ts         — JSON backup export/import with base64 images

  The SQLite tables are modelled as insertion-ordered lists of rows.
  `SELECT ... WHERE id = ?` picking one row is `List.find?` (first match);
  `UPDATE ... WHERE id = ?` is a `List.map` updating every matching row;
  `DELETE` is `List.filter`; `INSERT` appends.  `PRAGMA foreign_keys = ON`
  together with the PRIMARY KEY constraints means an INSERT/UPDATE that
  would violate a constraint throws and leaves the database unchanged;
  such statements are modelled as the identity on the state.
  Monetary columns are SQLite INTEGERs, modelled as `Int`.
-/
import Mathlib

namespace LiquidMoney

/-- The column constraint `type TEXT NOT NULL CHECK(type IN ('IN', 'OUT'))` from db.ts:
the transaction type enumeration. -/
inductive TxnType where
  | IN : TxnType
  | OUT : TxnType
deriving DecidableEq, Repr

/-- Wallet row (interface `Wallet` in queries.ts / table `wallets` in db.ts). -/
structure Wallet where
  id : String
  name : String
  initial_balance : Int
  current_balance : Int
  image_uri : Option String
  icon : Option String
  created_at : String
deriving DecidableEq, Repr

/-- Transaction row (interface `Transaction` in queries.ts / table
`transactions` in db.ts).  The TS field `type` is spelled `ty` here
(`type` is a Lean keyword). -/
structure Txn where
  id : String
  wallet_id : String
  ty : TxnType
  amount : Int
  reason : Option String
  image_uri : Option String
  created_at : String
deriving DecidableEq, Repr

/-- The SQLite database state: the two tables, rows in insertion order. -/
structure DBState where
  wallets : List Wallet
  transactions : List Txn
deriving DecidableEq, Repr

/-- The query `SELECT COALESCE(SUM(amount), 0) as total FROM transactions
WHERE wallet_id = ? AND type = ?` — shared by recalculateBalance and
updateWalletDirect in queries.ts.  The sum of the empty list is 0,
matching COALESCE. -/
def sumAmount (ts : List Txn) (walletId : String) (ty : TxnType) : Int :=
  ((ts.filter fun t => t.wallet_id = walletId ∧ t.ty = ty).map Txn.amount).sum

/-- queries.ts `recalculateBalance(walletId)`: read the wallet's
`initial_balance` (no-op if the wallet does not exist), sum IN and OUT
amounts, and `UPDATE wallets SET current_balance = ? WHERE id = ?`. -/
def recalculateBalance (walletId : String) (st : DBState) : DBState :=
  match st.wallets.find? (fun w => w.id = walletId) with
  | none => st
  | some w =>
    let totalIn := sumAmount st.transactions walletId TxnType.IN
    let totalOut := sumAmount st.transactions walletId TxnType.OUT
    let newBalance := w.initial_balance + totalIn - totalOut
    { st with
      wallets := st.wallets.map fun x =>
        if x.id = walletId then { x with current_balance := newBalance } else x }

/-- queries.ts `createWallet`: INSERT a fresh wallet row with
`current_balance := initial_balance` and `icon ?? 'Wallet'`.  The UUID and
timestamp generated inside the function are parameters here.  Inserting a
duplicate PRIMARY KEY throws, leaving the table unchanged. -/
def createWallet (id name : String) (initialBalance : Int)
    (imageUri icon : Option String) (createdAt : String) (st : DBState) : DBState :=
  if st.wallets.any (fun w => w.id = id) then st
  else
    { st with
      wallets := st.wallets ++
        [{ id := id, name := name, initial_balance := initialBalance,
           current_balance := initialBalance, image_uri := imageUri,
           icon := some (icon.getD "Wallet"), created_at := createdAt }] }

/-- queries.ts `getWalletById(id)`: `SELECT * FROM wallets WHERE id = ?`,
returning the first row or null. -/
def getWalletById (id : String) (st : DBState) : Option Wallet :=
  st.wallets.find? (fun w => w.id = id)

/-- queries.ts `updateWallet(id, name, initialBalance, imageUri?, icon?)`:
`UPDATE wallets SET name = ?, initial_balance = ?, image_uri = ?, icon = ?
WHERE id = ?` with `imageUri ?? null` and `icon ?? 'Wallet'`, then
`recalculateBalance(id)`.  An omitted optional argument is `none`. -/
def updateWallet (id name : String) (initialBalance : Int)
    (imageUri icon : Option String) (st : DBState) : DBState :=
  let st1 : DBState :=
    { st with
      wallets := st.wallets.map fun w =>
        if w.id = id then
          { w with name := name, initial_balance := initialBalance,
                   image_uri := imageUri, icon := some (icon.getD "Wallet") }
        else w }
  recalculateBalance id st1

/-- queries.ts `deleteWallet(id)`: `DELETE FROM wallets WHERE id = ?`;
the `ON DELETE CASCADE` foreign key in db.ts removes the wallet's
transactions in the same statement. -/
def deleteWallet (id : String) (st : DBState) : DBState :=
  { wallets := st.wallets.filter fun w => ¬ w.id = id,
    transactions := st.transactions.filter fun t => ¬ t.wallet_id = id }

/-- queries.ts `updateWalletDirect(id, name, newCurrentBalance, icon?)`:
inverse reconciliation.  Computes ΣIN and ΣOUT, solves
`newInitialBalance = newCurrentBalance - totalIn + totalOut`, and stores
both balances (and `icon ?? 'Wallet'`) in one UPDATE. -/
def updateWalletDirect (id name : String) (newCurrentBalance : Int)
    (icon : Option String) (st : DBState) : DBState :=
  let totalIn := sumAmount st.transactions id TxnType.IN
  let totalOut := sumAmount st.transactions id TxnType.OUT
  let newInitialBalance := newCurrentBalance - totalIn + totalOut
  { st with
    wallets := st.wallets.map fun w =>
      if w.id = id then
        { w with name := name, initial_balance := newInitialBalance,
                 current_balance := newCurrentBalance,
                 icon := some (icon.getD "Wallet") }
      else w }

/-- queries.ts `createTransaction(walletId, type, amount, reason?, imageUri?)`:
INSERT the row, then domino `recalculateBalance(walletId)`.  The generated
UUID and timestamp are parameters.  With `PRAGMA foreign_keys = ON` an
INSERT whose `wallet_id` matches no wallet, or whose PRIMARY KEY is taken,
throws before anything changes. -/
def createTransaction (id walletId : String) (ty : TxnType) (amount : Int)
    (reason imageUri : Option String) (createdAt : String) (st : DBState) : DBState :=
  if st.transactions.any (fun t => t.id = id) then st
  else if ¬ st.wallets.any (fun w => w.id = walletId) then st
  else
    recalculateBalance walletId
      { st with
        transactions := st.transactions ++
          [{ id := id, wallet_id := walletId, ty := ty, amount := amount,
             reason := reason, image_uri := imageUri, created_at := createdAt }] }

/-- queries.ts `updateTransaction(id, walletId, type, amount, reason?, imageUri?)`:
read the old `wallet_id` first, UPDATE the row, recalculate the new wallet,
and, when the transaction moved, the old wallet too.  With
`PRAGMA foreign_keys = ON`, an UPDATE that would point an existing row at a
missing wallet throws, leaving the database unchanged. -/
def updateTransaction (id walletId : String) (ty : TxnType) (amount : Int)
    (reason imageUri : Option String) (st : DBState) : DBState :=
  let oldWalletId := (st.transactions.find? (fun t => t.id = id)).map Txn.wallet_id
  if st.transactions.any (fun t => t.id = id) ∧
      ¬ st.wallets.any (fun w => w.id = walletId) then st
  else
    let st1 : DBState :=
      { st with
        transactions := st.transactions.map fun t =>
          if t.id = id then
            { t with wallet_id := walletId, ty := ty, amount := amount,
                     reason := reason, image_uri := imageUri }
          else t }
    let st2 := recalculateBalance walletId st1
    match oldWalletId with
    | some ow => if ow ≠ walletId then recalculateBalance ow st2 else st2
    | none => st2

/-- queries.ts `deleteTransaction(id)`: read the row's `wallet_id`, DELETE
the row, and recalculate that wallet when the row existed. -/
def deleteTransaction (id : String) (st : DBState) : DBState :=
  let walletId := (st.transactions.find? (fun t => t.id = id)).map Txn.wallet_id
  let st1 : DBState :=
    { st with transactions := st.transactions.filter fun t => ¬ t.id = id }
  match walletId with
  | some w => recalculateBalance w st1
  | none => st1

/-- queries.ts `getTransactionsByWallet(walletId, filterType?)`:
`SELECT * FROM transactions WHERE wallet_id = ? [AND type = ?]
ORDER BY created_at DESC`. -/
def getTransactionsByWallet (walletId : String) (filterType : Option TxnType)
    (st : DBState) : List Txn :=
  match filterType with
  | some ty =>
    (st.transactions.filter fun t => t.wallet_id = walletId ∧ t.ty = ty).mergeSort
      (fun a b => b.created_at ≤ a.created_at)
  | none =>
    (st.transactions.filter fun t => t.wallet_id = walletId).mergeSort
      (fun a b => b.created_at ≤ a.created_at)

-- ─── Statistics (queries.ts getMonthlyStats) ──────────────────────────────────

/-- One entry of the monthly statistics (interface `MonthlyStat`). -/
structure MonthlyStat where
  month : String
  totalIn : Int
  totalOut : Int
deriving DecidableEq, Repr

/-- JS `String(d.getMonth() + 1).padStart(2, '0')`. -/
def pad2 (k : Nat) : String :=
  if k < 10 then "0" ++ toString k else toString k

/-- The `'YYYY-MM'` key for the absolute month index `n = year * 12 + month`
(`month` 0-based as in JS `Date.getMonth()`), as built by
`` `${d.getFullYear()}-${m}` `` in getMonthlyStats. -/
def monthKeyOfIdx (n : Nat) : String :=
  toString (n / 12) ++ "-" ++ pad2 (n % 12 + 1)

/-- The `'YYYY-MM-01T00:00:00.000Z'` boundary string for a month index: the
hand-built `startDate` of getMonthlyStats, and — in a UTC process, for
four-digit years — also `new Date(y, m, 1).toISOString()`, the `endDate`
(the parsed `[y, m]` of the `'YYYY-MM'` key denote month index `idx + 1`
in JS's 0-based `Date` constructor). -/
def monthStartStr (idx : Nat) : String :=
  monthKeyOfIdx idx ++ "-01T00:00:00.000Z"

/-- The transactions of one month window: the getMonthlyStats SQL query
`WHERE [wallet_id = ? AND] created_at >= ? AND created_at < ?` with the two
boundaries of `monthStartStr`; ISO-8601 `created_at` strings compare
lexicographically. -/
def windowTxns (idx : Nat) (walletId : Option String) (st : DBState) : List Txn :=
  match walletId with
  | some wid =>
    st.transactions.filter fun t =>
      t.wallet_id = wid ∧ monthStartStr idx ≤ t.created_at ∧
        t.created_at < monthStartStr (idx + 1)
  | none =>
    st.transactions.filter fun t =>
      monthStartStr idx ≤ t.created_at ∧ t.created_at < monthStartStr (idx + 1)

/-- queries.ts `getMonthlyStats(walletId?)`.  The anchor date `new Date()` is
the parameter pair `(year, month)` (`month` 0-based); JS month arithmetic
`new Date(year, month - i, 1)` is absolute-month-index arithmetic on
`year * 12 + month`.  The `GROUP BY type` result rows (one row per type
present among the matching transactions, carrying that group's SUM) and the
`totalIn`/`totalOut` accumulation loop over them are modelled verbatim. -/
def getMonthlyStats (year month : Nat) (walletId : Option String)
    (st : DBState) : List MonthlyStat :=
  let months : List Nat := (List.range 6).map fun k => year * 12 + month - (5 - k)
  months.map fun idx =>
    let matching := windowTxns idx walletId st
    let inRows := matching.filter fun t => t.ty = TxnType.IN
    let outRows := matching.filter fun t => t.ty = TxnType.OUT
    let rows : List (TxnType × Int) :=
      (if inRows.isEmpty then [] else [(TxnType.IN, (inRows.map Txn.amount).sum)]) ++
      (if outRows.isEmpty then [] else [(TxnType.OUT, (outRows.map Txn.amount).sum)])
    let totals := rows.foldl
      (fun (acc : Int × Int) row =>
        match row.1 with
        | TxnType.IN => (row.2, acc.2)
        | TxnType.OUT => (acc.1, row.2))
      (0, 0)
    { month := monthKeyOfIdx idx, totalIn := totals.1, totalOut := totals.2 }

-- ─── Export / import (queries.ts) ─────────────────────────────────────────────

/-- queries.ts interface `ExportData`. -/
structure ExportData where
  wallets : List Wallet
  transactions : List Txn
deriving DecidableEq, Repr

/-- queries.ts `getExportData()`: both tables,
`ORDER BY created_at ASC`. -/
def getExportData (st : DBState) : ExportData :=
  { wallets := st.wallets.mergeSort fun a b => a.created_at ≤ b.created_at,
    transactions := st.transactions.mergeSort fun a b => a.created_at ≤ b.created_at }

/-- queries.ts `importData(data)`: DELETE all transactions, DELETE all
wallets, INSERT the document's wallets (`icon ?? 'Wallet'`) and transactions
verbatim, then `recalculateBalance` for every wallet id now in the table.
A document carrying a duplicate PRIMARY KEY or a transaction referencing a
missing wallet makes the real INSERT loop throw part-way; the theorems about
completed runs therefore carry the corresponding well-formedness hypotheses. -/
def importData (data : ExportData) (st : DBState) : DBState :=
  let st1 : DBState := { st with transactions := [] }
  let st2 : DBState := { st1 with wallets := [] }
  let st3 : DBState :=
    { st2 with
      wallets := st2.wallets ++
        data.wallets.map fun w => { w with icon := some (w.icon.getD "Wallet") } }
  let st4 : DBState := { st3 with transactions := st3.transactions ++ data.transactions }
  (st4.wallets.map Wallet.id).foldl (fun s wid => recalculateBalance wid s) st4

-- ─── Backup codec (backupService.ts) ─────────────────────────────────────────

/-- The app-private image store, modelled as an association list from file
path to (base64) file content. -/
abbrev FileSys := List (String × String)

/-- backupService.ts `IMAGE_DIR` (the `DocumentDirectoryPath` prefix is
platform I/O and is left out of the path string). -/
def IMAGE_DIR : String := "liquidmoney_images"

/-- backupService.ts `fileToBase64(filePath)`: RNFS.exists + readFile; a
missing (or unreadable) file yields null. -/
def fileToBase64 (fs : FileSys) (filePath : String) : Option String :=
  (fs.find? fun e => e.1 = filePath).map Prod.snd

/-- backupService.ts `base64ToFile(base64Data, fileName)`: write the content
under `IMAGE_DIR` and return the new path.  `writeFile` overwrites. -/
def base64ToFile (fs : FileSys) (base64Data fileName : String) : FileSys × String :=
  let filePath := IMAGE_DIR ++ "/" ++ fileName
  ((fs.filter fun e => ¬ e.1 = filePath) ++ [(filePath, base64Data)], filePath)

/-- backupService.ts `clearImageDirectory()`: unlink the whole image
directory (and recreate it empty). -/
def clearImageDirectory (fs : FileSys) : FileSys :=
  fs.filter fun e => ¬ (IMAGE_DIR ++ "/").isPrefixOf e.1

/-- backupService.ts `BackupWallet`: a Wallet extended with `image_base64`. -/
structure BackupWallet extends Wallet where
  image_base64 : Option String
deriving DecidableEq, Repr

/-- backupService.ts `BackupTransaction`. -/
structure BackupTxn extends Txn where
  image_base64 : Option String
deriving DecidableEq, Repr

/-- backupService.ts `BackupData`: the JSON backup document. -/
structure BackupData where
  version : Nat
  app : String
  exported_at : String
  wallets : List BackupWallet
  transactions : List BackupTxn
deriving DecidableEq, Repr

/-- backupService.ts `BACKUP_VERSION`. -/
def BACKUP_VERSION : Nat := 1

/-- backupService.ts `exportBackup()` steps 1–4: read `getExportData`,
resolve each row's `image_uri` to base64 via `fileToBase64` (null when the
field is null), and assemble the document.  The generated `exported_at`
timestamp is a parameter; writing the JSON file to disk (step 5) is
platform I/O outside the document's content. -/
def exportBackup (exported_at : String) (st : DBState) (fs : FileSys) : BackupData :=
  let rawData := getExportData st
  { version := BACKUP_VERSION,
    app := "LiquidMoney",
    exported_at := exported_at,
    wallets := rawData.wallets.map fun w =>
      { toWallet := w,
        image_base64 := match w.image_uri with
          | some uri => fileToBase64 fs uri
          | none => none },
    transactions := rawData.transactions.map fun t =>
      { toTxn := t,
        image_base64 := match t.image_uri with
          | some uri => fileToBase64 fs uri
          | none => none } }

/-- A parsed backup JSON as `importBackup` validates it: each of the two
sequences is `none` when the field is missing or not an array
(`!backup.wallets || !Array.isArray(backup.wallets)`), otherwise the list. -/
structure RawBackup where
  wallets : Option (List BackupWallet)
  transactions : Option (List BackupTxn)

/-- backupService.ts `importBackup` step 5, the wallet-image loop: write each
embedded `image_base64` to `IMAGE_DIR/wallet_{id}.jpg` giving the new
`image_uri`, drop the base64 field. -/
def importWalletImages : List BackupWallet → FileSys → FileSys × List Wallet
  | [], fs => (fs, [])
  | bw :: rest, fs =>
    match bw.image_base64 with
    | some b64 =>
      let fb := base64ToFile fs b64 ("wallet_" ++ bw.id ++ ".jpg")
      let r := importWalletImages rest fb.1
      (r.1, { bw.toWallet with image_uri := some fb.2 } :: r.2)
    | none =>
      let r := importWalletImages rest fs
      (r.1, { bw.toWallet with image_uri := none } :: r.2)

/-- backupService.ts `importBackup` step 6, the transaction-image loop
(`txn_{id}.jpg`). -/
def importTxnImages : List BackupTxn → FileSys → FileSys × List Txn
  | [], fs => (fs, [])
  | bt :: rest, fs =>
    match bt.image_base64 with
    | some b64 =>
      let fb := base64ToFile fs b64 ("txn_" ++ bt.id ++ ".jpg")
      let r := importTxnImages rest fb.1
      (r.1, { bt.toTxn with image_uri := some fb.2 } :: r.2)
    | none =>
      let r := importTxnImages rest fs
      (r.1, { bt.toTxn with image_uri := none } :: r.2)

/-- backupService.ts `importBackup()` after a file has been picked and
parsed (the document picker and JSON.parse are platform I/O; a user
cancellation returns false before this point): validate that `wallets` and
`transactions` are arrays, then clear the image directory, restore the
images, and hand the rows to `importData`.  Returns the database, the image
store, and the call's outcome (`Except.error` models the thrown `Error`). -/
def importBackup (raw : RawBackup) (st : DBState) (fs : FileSys) :
    DBState × FileSys × Except String Bool :=
  match raw.wallets with
  | none => (st, fs, Except.error "File backup khong hop le: thieu danh sach vi.")
  | some bws =>
    match raw.transactions with
    | none => (st, fs, Except.error "File backup khong hop le: thieu danh sach giao dich.")
    | some bts =>
      let fs1 := clearImageDirectory fs
      let rw := importWalletImages bws fs1
      let rt := importTxnImages bts rw.1
      (importData { wallets := rw.2, transactions := rt.2 } st, rt.1, Except.ok true)

/-- Parsing (`JSON.parse`) the document `exportBackup` just wrote: both sequences
are present as arrays. -/
def rawOfBackup (b : BackupData) : RawBackup :=
  { wallets := some b.wallets, transactions := some b.transactions }

-- ─── The spec's invariants ───────────────────────────────────────────────────

/-- The central invariant for one wallet:
`current_balance == initial_balance + ΣIN − ΣOUT` over the given ledger. -/
def walletOk (ts : List Txn) (w : Wallet) : Prop :=
  w.current_balance =
    w.initial_balance + sumAmount ts w.id TxnType.IN - sumAmount ts w.id TxnType.OUT

instance (ts : List Txn) (w : Wallet) : Decidable (walletOk ts w) := by
  unfold walletOk; infer_instance

/-- The forward invariant for the whole database. -/
def balanceInvariant (st : DBState) : Prop :=
  ∀ w ∈ st.wallets, walletOk st.transactions w

instance (st : DBState) : Decidable (balanceInvariant st) := by
  unfold balanceInvariant; infer_instance

/-- The constraint `id TEXT PRIMARY KEY` on `wallets`. -/
def walletIdsNodup (st : DBState) : Prop :=
  (st.wallets.map Wallet.id).Nodup

/-- The constraint `id TEXT PRIMARY KEY` on `transactions`. -/
def txnIdsNodup (st : DBState) : Prop :=
  (st.transactions.map Txn.id).Nodup

/-- The four ledger mutations of the forward invariant (claim C1): the
per-call generated UUID/timestamp and every argument are data of the
mutation. -/
inductive Mutation where
  | createTxn (id walletId : String) (ty : TxnType) (amount : Int)
      (reason imageUri : Option String) (createdAt : String)
  | updateTxn (id walletId : String) (ty : TxnType) (amount : Int)
      (reason imageUri : Option String)
  | deleteTxn (id : String)
  | updWallet (id name : String) (initialBalance : Int)
      (imageUri icon : Option String)

/-- Run one mutation against the database. -/
def applyMutation (m : Mutation) (st : DBState) : DBState :=
  match m with
  | Mutation.createTxn id walletId ty amount reason imageUri createdAt =>
    createTransaction id walletId ty amount reason imageUri createdAt st
  | Mutation.updateTxn id walletId ty amount reason imageUri =>
    updateTransaction id walletId ty amount reason imageUri st
  | Mutation.deleteTxn id => deleteTransaction id st
  | Mutation.updWallet id name initialBalance imageUri icon =>
    updateWallet id name initialBalance imageUri icon st

/-- Run a sequence of mutations, oldest first. -/
def applyMutations (ms : List Mutation) (st : DBState) : DBState :=
  ms.foldl (fun s m => applyMutation m s) st

-- ─── Lemmas about sumAmount ──────────────────────────────────────────────────

lemma sumAmount_nil (wid : String) (ty : TxnType) : sumAmount [] wid ty = 0 := rfl

lemma sumAmount_cons (t : Txn) (ts : List Txn) (wid : String) (ty : TxnType) :
    sumAmount (t :: ts) wid ty =
      (if t.wallet_id = wid ∧ t.ty = ty then t.amount else 0) + sumAmount ts wid ty := by
  by_cases h : t.wallet_id = wid ∧ t.ty = ty <;>
    simp [sumAmount, List.filter_cons, h]

lemma sumAmount_append_single (ts : List Txn) (t : Txn) (wid : String) (ty : TxnType) :
    sumAmount (ts ++ [t]) wid ty =
      sumAmount ts wid ty + (if t.wallet_id = wid ∧ t.ty = ty then t.amount else 0) := by
  induction ts with
  | nil => simp [sumAmount_cons, sumAmount_nil]
  | cons a l ih => simp only [List.cons_append, sumAmount_cons, ih]; ring

lemma sumAmount_filter (p : Txn → Bool) (ts : List Txn) (wid : String) (ty : TxnType)
    (h : ∀ t ∈ ts, t.wallet_id = wid → t.ty = ty → p t = true) :
    sumAmount (ts.filter p) wid ty = sumAmount ts wid ty := by
  induction ts with
  | nil => rfl
  | cons a l ih =>
    have ih' := ih fun t ht => h t (List.mem_cons_of_mem a ht)
    by_cases hpa : p a = true
    · rw [List.filter_cons_of_pos hpa, sumAmount_cons, sumAmount_cons, ih']
    · rw [List.filter_cons_of_neg (by simpa using hpa), sumAmount_cons, ih']
      have : ¬ (a.wallet_id = wid ∧ a.ty = ty) := by
        rintro ⟨h1, h2⟩; exact hpa (h a (List.mem_cons_self a l) h1 h2)
      rw [if_neg this, zero_add]

lemma sumAmount_map (f : Txn → Txn) (ts : List Txn) (wid : String) (ty : TxnType)
    (h : ∀ t ∈ ts, f t = t ∨
      (¬(t.wallet_id = wid ∧ t.ty = ty) ∧ ¬((f t).wallet_id = wid ∧ (f t).ty = ty))) :
    sumAmount (ts.map f) wid ty = sumAmount ts wid ty := by
  induction ts with
  | nil => rfl
  | cons a l ih =>
    have ih' := ih fun t ht => h t (List.mem_cons_of_mem a ht)
    rw [List.map_cons, sumAmount_cons, sumAmount_cons, ih']
    rcases h a (List.mem_cons_self a l) with heq | ⟨hno, hno'⟩
    · rw [heq]
    · rw [if_neg hno, if_neg hno']

lemma sumAmount_perm {ts ts' : List Txn} (h : ts.Perm ts') (wid : String) (ty : TxnType) :
    sumAmount ts wid ty = sumAmount ts' wid ty :=
  ((h.filter _).map _).sum_eq

-- ─── Lemmas about recalculateBalance ─────────────────────────────────────────

lemma recalc_transactions (walletId : String) (st : DBState) :
    (recalculateBalance walletId st).transactions = st.transactions := by
  simp only [recalculateBalance]
  split <;> rfl

lemma recalc_wallets_map_id (walletId : String) (st : DBState) :
    (recalculateBalance walletId st).wallets.map Wallet.id = st.wallets.map Wallet.id := by
  simp only [recalculateBalance]
  split
  · rfl
  · rw [List.map_map]
    apply List.map_congr_left
    intro x _
    by_cases hx : x.id = walletId <;> simp [hx, Function.comp]

lemma recalc_nodup {walletId : String} {st : DBState} (hnd : walletIdsNodup st) :
    walletIdsNodup (recalculateBalance walletId st) := by
  unfold walletIdsNodup at hnd ⊢
  rw [recalc_wallets_map_id]; exact hnd

lemma recalc_mem_of_ne {w' : Wallet} {walletId : String} {st : DBState}
    (h : w' ∈ (recalculateBalance walletId st).wallets) (hne : w'.id ≠ walletId) :
    w' ∈ st.wallets := by
  simp only [recalculateBalance] at h
  split at h
  · exact h
  · simp only [List.mem_map] at h
    obtain ⟨x, hx, hfx⟩ := h
    by_cases hxid : x.id = walletId
    · exfalso; apply hne; rw [← hfx]; simp [hxid]
    · rw [← hfx]; simpa [hxid] using hx

lemma recalc_mem_of_mem_ne {w : Wallet} {walletId : String} {st : DBState}
    (h : w ∈ st.wallets) (hne : w.id ≠ walletId) :
    w ∈ (recalculateBalance walletId st).wallets := by
  simp only [recalculateBalance]
  split
  · exact h
  · simp only [List.mem_map]
    exact ⟨w, h, by simp [hne]⟩

lemma recalc_target_ok {walletId : String} {st : DBState} (hnd : walletIdsNodup st) :
    ∀ w' ∈ (recalculateBalance walletId st).wallets, w'.id = walletId →
      walletOk st.transactions w' := by
  intro w' hw' hid
  simp only [recalculateBalance] at hw'
  split at hw'
  · rename_i hf
    rw [List.find?_eq_none] at hf
    exact absurd hid (by simpa using hf w' hw')
  · rename_i w0 hf
    simp only [List.mem_map] at hw'
    obtain ⟨x, hx, hfx⟩ := hw'
    have hw0mem : w0 ∈ st.wallets := List.mem_of_find?_eq_some hf
    have hw0id : w0.id = walletId := by simpa using List.find?_some hf
    by_cases hxid : x.id = walletId
    · have hxw0 : x = w0 :=
        List.inj_on_of_nodup_map hnd hx hw0mem (by rw [hxid, hw0id])
      rw [← hfx]
      simp only [hxid, if_pos]
      unfold walletOk
      simp [hxid, hxw0]
    · exfalso; apply hxid; rw [← hfx] at hid; simp [hxid] at hid

lemma walletIdsNodup_set_transactions {st : DBState} (hnd : walletIdsNodup st)
    (ts : List Txn) : walletIdsNodup { st with transactions := ts } := hnd

lemma walletOk_of_eq_sums {ts ts' : List Txn} {w : Wallet} (h : walletOk ts w)
    (hin : sumAmount ts' w.id TxnType.IN = sumAmount ts w.id TxnType.IN)
    (hout : sumAmount ts' w.id TxnType.OUT = sumAmount ts w.id TxnType.OUT) :
    walletOk ts' w := by
  unfold walletOk at h ⊢; rw [hin, hout]; exact h

/-- After a recalculation of `walletId`, the whole database satisfies the
forward invariant as soon as every other wallet already did. -/
lemma invariant_after_recalc {walletId : String} {st : DBState}
    (hnd : walletIdsNodup st)
    (h : ∀ w ∈ st.wallets, w.id ≠ walletId → walletOk st.transactions w) :
    balanceInvariant (recalculateBalance walletId st) := by
  intro w' hw'
  rw [recalc_transactions]
  by_cases hid : w'.id = walletId
  · exact recalc_target_ok hnd w' hw' hid
  · exact h w' (recalc_mem_of_ne hw' hid) hid

lemma map_preserves_map_id {α : Type _} (f : α → α) (key : α → String) (l : List α)
    (hf : ∀ x, key (f x) = key x) : (l.map f).map key = l.map key := by
  rw [List.map_map]
  apply List.map_congr_left
  intro x _
  simp [Function.comp, hf]

-- ─── createTransaction preserves the invariant and well-formedness ───────────

lemma createTransaction_invariant {st : DBState}
    (hnd : walletIdsNodup st) (hinv : balanceInvariant st)
    (id walletId : String) (ty : TxnType) (amount : Int)
    (reason imageUri : Option String) (createdAt : String) :
    balanceInvariant (createTransaction id walletId ty amount reason imageUri createdAt st) := by
  unfold createTransaction
  split
  · exact hinv
  split
  · exact hinv
  · rename_i hdup hfk
    refine invariant_after_recalc ?_ ?_
    · exact hnd
    · intro w hw hne
      refine walletOk_of_eq_sums (hinv w hw) ?_ ?_ <;>
      · rw [sumAmount_append_single, if_neg, add_zero]
        rintro ⟨h1, _⟩
        exact hne (by simpa using h1.symm)

lemma createTransaction_wf {st : DBState}
    (hndw : walletIdsNodup st) (hndt : txnIdsNodup st)
    (id walletId : String) (ty : TxnType) (amount : Int)
    (reason imageUri : Option String) (createdAt : String) :
    walletIdsNodup (createTransaction id walletId ty amount reason imageUri createdAt st) ∧
    txnIdsNodup (createTransaction id walletId ty amount reason imageUri createdAt st) := by
  unfold createTransaction
  split
  · exact ⟨hndw, hndt⟩
  split
  · exact ⟨hndw, hndt⟩
  · rename_i hdup hfk
    constructor
    · exact recalc_nodup hndw
    · unfold txnIdsNodup
      rw [recalc_transactions]
      have hidnot : id ∉ st.transactions.map Txn.id := by
        intro hmem
        apply hdup
        simp only [List.mem_map] at hmem
        obtain ⟨t, ht, hta⟩ := hmem
        simp only [List.any_eq_true, decide_eq_true_eq]
        exact ⟨t, ht, hta⟩
      simp only [List.map_append, List.map_cons, List.map_nil]
      rw [List.nodup_append]
      refine ⟨hndt, List.nodup_singleton _, ?_⟩
      intro a ha hc
      simp only [List.mem_singleton] at hc
      subst hc
      exact hidnot ha

-- ─── updateTransaction preserves the invariant ───────────────────────────────

lemma updateTransaction_invariant {st : DBState}
    (hndw : walletIdsNodup st) (hndt : txnIdsNodup st) (hinv : balanceInvariant st)
    (id walletId : String) (ty : TxnType) (amount : Int)
    (reason imageUri : Option String) :
    balanceInvariant (updateTransaction id walletId ty amount reason imageUri st) := by
  simp only [updateTransaction]
  split
  · exact hinv
  rename_i hcond
  cases hf : st.transactions.find? (fun t => t.id = id) with
  | none =>
    have hnone : ∀ t ∈ st.transactions, ¬ t.id = id := by
      intro t ht
      have := List.find?_eq_none.mp hf t ht
      simpa using this
    simp only [Option.map_none']
    refine invariant_after_recalc ?_ ?_
    · exact hndw
    · intro w hw hne
      refine walletOk_of_eq_sums (hinv w hw) ?_ ?_ <;>
        exact sumAmount_map _ _ _ _ fun t ht => Or.inl (if_neg (hnone t ht))
  | some t0 =>
    have ht0mem : t0 ∈ st.transactions := List.mem_of_find?_eq_some hf
    have ht0id : t0.id = id := by simpa using List.find?_some hf
    have huniq : ∀ t ∈ st.transactions, t.id = id → t = t0 := fun t ht hti =>
      List.inj_on_of_nodup_map hndt ht ht0mem (by rw [hti, ht0id])
    simp only [Option.map_some']
    split
    · -- the transaction moved: recalculate the old wallet on top
      rename_i hmoved
      refine invariant_after_recalc ?_ ?_
      · exact recalc_nodup hndw
      · intro w hw hne
        rw [recalc_transactions]
        by_cases hwid : w.id = walletId
        · refine recalc_target_ok ?_ w hw hwid
          exact hndw
        · have hw' := recalc_mem_of_ne hw hwid
          have hw'' : w ∈ st.wallets := hw'
          refine walletOk_of_eq_sums (hinv w hw'') ?_ ?_ <;>
          · refine sumAmount_map _ _ _ _ fun t ht => ?_
            by_cases hti : t.id = id
            · right
              have hte : t = t0 := huniq t ht hti
              subst hte
              simp only [hti, if_pos, true_and]
              constructor
              · rintro ⟨h1, _⟩; exact hne h1.symm
              · rintro ⟨h1, _⟩; exact hwid h1.symm
            · exact Or.inl (if_neg hti)
    · -- same wallet: only the new wallet is recalculated
      rename_i hsame
      have hsame' : t0.wallet_id = walletId := by
        by_contra hc; exact hsame hc
      refine invariant_after_recalc ?_ ?_
      · exact hndw
      · intro w hw hne
        refine walletOk_of_eq_sums (hinv w hw) ?_ ?_ <;>
        · refine sumAmount_map _ _ _ _ fun t ht => ?_
          by_cases hti : t.id = id
          · right
            have hte : t = t0 := huniq t ht hti
            subst hte
            simp only [hti, if_pos, true_and]
            constructor
            · rintro ⟨h1, _⟩; exact hne (by rw [← h1, hsame'])
            · rintro ⟨h1, _⟩; exact hne h1.symm
          · exact Or.inl (if_neg hti)

-- ─── deleteTransaction preserves the invariant ───────────────────────────────

lemma deleteTransaction_invariant {st : DBState}
    (hndw : walletIdsNodup st) (hndt : txnIdsNodup st) (hinv : balanceInvariant st)
    (id : String) :
    balanceInvariant (deleteTransaction id st) := by
  simp only [deleteTransaction]
  cases hf : st.transactions.find? (fun t => t.id = id) with
  | none =>
    have hnone : ∀ t ∈ st.transactions, ¬ t.id = id := by
      intro t ht
      have := List.find?_eq_none.mp hf t ht
      simpa using this
    simp only [Option.map_none']
    intro w hw
    refine walletOk_of_eq_sums (hinv w hw) ?_ ?_ <;>
      exact sumAmount_filter _ _ _ _ fun t ht _ _ => by
        simpa using hnone t ht
  | some t0 =>
    have ht0mem : t0 ∈ st.transactions := List.mem_of_find?_eq_some hf
    have ht0id : t0.id = id := by simpa using List.find?_some hf
    have huniq : ∀ t ∈ st.transactions, t.id = id → t = t0 := fun t ht hti =>
      List.inj_on_of_nodup_map hndt ht ht0mem (by rw [hti, ht0id])
    simp only [Option.map_some']
    refine invariant_after_recalc ?_ ?_
    · exact hndw
    · intro w hw hne
      refine walletOk_of_eq_sums (hinv w hw) ?_ ?_ <;>
      · refine sumAmount_filter _ _ _ _ fun t ht h1 _ => ?_
        simp only [decide_eq_true_eq]
        intro hti
        have hte : t = t0 := huniq t ht hti
        exact hne (by rw [← h1, hte])

-- ─── updateWallet preserves the invariant ────────────────────────────────────

lemma updateWallet_invariant {st : DBState}
    (hndw : walletIdsNodup st) (hinv : balanceInvariant st)
    (id name : String) (initialBalance : Int) (imageUri icon : Option String) :
    balanceInvariant (updateWallet id name initialBalance imageUri icon st) := by
  simp only [updateWallet]
  refine invariant_after_recalc ?_ ?_
  · unfold walletIdsNodup
    rw [map_preserves_map_id]
    · exact hndw
    · intro x
      by_cases hx : x.id = id <;> simp [hx]
  · intro w hw hne
    simp only [List.mem_map] at hw
    obtain ⟨x, hx, hgx⟩ := hw
    by_cases hxid : x.id = id
    · exfalso; apply hne; rw [← hgx]; simp [hxid]
    · have hwx : w = x := by rw [← hgx]; simp [hxid]
      rw [hwx]
      exact hinv x hx

-- ─── Well-formedness is preserved by every mutation ──────────────────────────

/-- The schema constraints: both PRIMARY KEYs hold. -/
def wf (st : DBState) : Prop := walletIdsNodup st ∧ txnIdsNodup st

instance (st : DBState) : Decidable (walletIdsNodup st) := by
  unfold walletIdsNodup; infer_instance

instance (st : DBState) : Decidable (txnIdsNodup st) := by
  unfold txnIdsNodup; infer_instance

instance (st : DBState) : Decidable (wf st) := by
  unfold wf; infer_instance

lemma updateTransaction_wf {st : DBState} (h : wf st)
    (id walletId : String) (ty : TxnType) (amount : Int)
    (reason imageUri : Option String) :
    wf (updateTransaction id walletId ty amount reason imageUri st) := by
  obtain ⟨h1, h2⟩ := h
  have hkey : ∀ t : Txn,
      Txn.id (if t.id = id then
        { t with wallet_id := walletId, ty := ty, amount := amount,
                 reason := reason, image_uri := imageUri } else t) = t.id := by
    intro t; by_cases ht : t.id = id <;> simp [ht]
  simp only [updateTransaction]
  split
  · exact ⟨h1, h2⟩
  cases hf : st.transactions.find? (fun t => t.id = id) with
  | none =>
    simp only [Option.map_none']
    constructor
    · exact recalc_nodup h1
    · unfold txnIdsNodup
      rw [recalc_transactions]
      show (st.transactions.map _).map Txn.id |>.Nodup
      rw [map_preserves_map_id _ _ _ hkey]
      exact h2
  | some t0 =>
    simp only [Option.map_some']
    split
    · constructor
      · exact recalc_nodup (recalc_nodup h1)
      · unfold txnIdsNodup
        rw [recalc_transactions, recalc_transactions]
        show (st.transactions.map _).map Txn.id |>.Nodup
        rw [map_preserves_map_id _ _ _ hkey]
        exact h2
    · constructor
      · exact recalc_nodup h1
      · unfold txnIdsNodup
        rw [recalc_transactions]
        show (st.transactions.map _).map Txn.id |>.Nodup
        rw [map_preserves_map_id _ _ _ hkey]
        exact h2

lemma deleteTransaction_wf {st : DBState} (h : wf st) (id : String) :
    wf (deleteTransaction id st) := by
  obtain ⟨h1, h2⟩ := h
  have hsub : ∀ p : Txn → Bool,
      ((st.transactions.filter p).map Txn.id).Nodup :=
    fun p => ((st.transactions.filter_sublist).map Txn.id).nodup h2
  simp only [deleteTransaction]
  cases hf : st.transactions.find? (fun t => t.id = id) with
  | none =>
    simp only [Option.map_none']
    exact ⟨h1, hsub _⟩
  | some t0 =>
    simp only [Option.map_some']
    constructor
    · exact recalc_nodup h1
    · unfold txnIdsNodup
      rw [recalc_transactions]
      exact hsub _

lemma updateWallet_wf {st : DBState} (h : wf st)
    (id name : String) (initialBalance : Int) (imageUri icon : Option String) :
    wf (updateWallet id name initialBalance imageUri icon st) := by
  obtain ⟨h1, h2⟩ := h
  simp only [updateWallet]
  constructor
  · apply recalc_nodup
    unfold walletIdsNodup
    rw [map_preserves_map_id]
    · exact h1
    · intro x
      by_cases hx : x.id = id <;> simp [hx]
  · unfold txnIdsNodup
    rw [recalc_transactions]
    exact h2

lemma createTransaction_wf' {st : DBState} (h : wf st)
    (id walletId : String) (ty : TxnType) (amount : Int)
    (reason imageUri : Option String) (createdAt : String) :
    wf (createTransaction id walletId ty amount reason imageUri createdAt st) :=
  createTransaction_wf h.1 h.2 id walletId ty amount reason imageUri createdAt

lemma applyMutation_wf {st : DBState} (h : wf st) (m : Mutation) :
    wf (applyMutation m st) := by
  cases m with
  | createTxn id walletId ty amount reason imageUri createdAt =>
    exact createTransaction_wf' h id walletId ty amount reason imageUri createdAt
  | updateTxn id walletId ty amount reason imageUri =>
    exact updateTransaction_wf h id walletId ty amount reason imageUri
  | deleteTxn id => exact deleteTransaction_wf h id
  | updWallet id name initialBalance imageUri icon =>
    exact updateWallet_wf h id name initialBalance imageUri icon

lemma applyMutation_invariant {st : DBState} (h : wf st) (hinv : balanceInvariant st)
    (m : Mutation) : balanceInvariant (applyMutation m st) := by
  cases m with
  | createTxn id walletId ty amount reason imageUri createdAt =>
    exact createTransaction_invariant h.1 hinv id walletId ty amount reason imageUri createdAt
  | updateTxn id walletId ty amount reason imageUri =>
    exact updateTransaction_invariant h.1 h.2 hinv id walletId ty amount reason imageUri
  | deleteTxn id => exact deleteTransaction_invariant h.1 h.2 hinv id
  | updWallet id name initialBalance imageUri icon =>
    exact updateWallet_invariant h.1 hinv id name initialBalance imageUri icon

lemma applyMutations_invariant {st : DBState} (ms : List Mutation)
    (h : wf st) (hinv : balanceInvariant st) :
    balanceInvariant (applyMutations ms st) := by
  induction ms generalizing st with
  | nil => exact hinv
  | cons m rest ih =>
    exact ih (applyMutation_wf h m) (applyMutation_invariant h hinv m)

-- ─── Reconciling a list of wallets in sequence (the import loop) ─────────────

lemma foldl_recalc_transactions (L : List String) (st : DBState) :
    (L.foldl (fun s wid => recalculateBalance wid s) st).transactions =
      st.transactions := by
  induction L generalizing st with
  | nil => rfl
  | cons a rest ih => rw [List.foldl_cons, ih, recalc_transactions]

lemma foldl_recalc_map_id (L : List String) (st : DBState) :
    (L.foldl (fun s wid => recalculateBalance wid s) st).wallets.map Wallet.id =
      st.wallets.map Wallet.id := by
  induction L generalizing st with
  | nil => rfl
  | cons a rest ih => rw [List.foldl_cons, ih, recalc_wallets_map_id]

lemma foldl_recalc_nodup {L : List String} {st : DBState} (hnd : walletIdsNodup st) :
    walletIdsNodup (L.foldl (fun s wid => recalculateBalance wid s) st) := by
  unfold walletIdsNodup at hnd ⊢
  rw [foldl_recalc_map_id]; exact hnd

/-- Running `recalculateBalance` over a list of wallet ids establishes the
forward invariant for every wallet whose id is in the list, and leaves the
other wallet rows untouched. -/
lemma foldl_recalc_ok (L : List String) (st : DBState) (hnd : walletIdsNodup st) :
    ∀ w' ∈ (L.foldl (fun s wid => recalculateBalance wid s) st).wallets,
      (w'.id ∈ L → walletOk st.transactions w') ∧ (w'.id ∉ L → w' ∈ st.wallets) := by
  induction L generalizing st with
  | nil =>
    intro w' hw'
    exact ⟨fun h => absurd h (List.not_mem_nil _), fun _ => hw'⟩
  | cons a rest ih =>
    intro w' hw'
    have hnd' : walletIdsNodup (recalculateBalance a st) := recalc_nodup hnd
    have H := ih (recalculateBalance a st) hnd' w' hw'
    constructor
    · intro hmem
      rcases List.mem_cons.mp hmem with h | h
      · by_cases hr : w'.id ∈ rest
        · have := H.1 hr; rwa [recalc_transactions] at this
        · exact recalc_target_ok hnd w' (H.2 hr) h
      · have := H.1 h; rwa [recalc_transactions] at this
    · intro hmem
      have hna : w'.id ≠ a := fun hc => hmem (hc ▸ List.mem_cons_self a rest)
      have hnr : w'.id ∉ rest := fun hc => hmem (List.mem_cons_of_mem a hc)
      exact recalc_mem_of_ne (H.2 hnr) hna

/-- All wallet fields except `current_balance` agree. -/
def sameExceptCurrent (w w' : Wallet) : Prop :=
  w'.id = w.id ∧ w'.name = w.name ∧ w'.initial_balance = w.initial_balance ∧
  w'.image_uri = w.image_uri ∧ w'.icon = w.icon ∧ w'.created_at = w.created_at

lemma sameExceptCurrent_trans {a b c : Wallet}
    (h1 : sameExceptCurrent a b) (h2 : sameExceptCurrent b c) :
    sameExceptCurrent a c := by
  obtain ⟨x1, x2, x3, x4, x5, x6⟩ := h1
  obtain ⟨y1, y2, y3, y4, y5, y6⟩ := h2
  exact ⟨y1.trans x1, y2.trans x2, y3.trans x3, y4.trans x4, y5.trans x5, y6.trans x6⟩

lemma recalc_shape (wid : String) (st : DBState) :
    ∀ w ∈ st.wallets, ∃ w' ∈ (recalculateBalance wid st).wallets,
      sameExceptCurrent w w' := by
  intro w hw
  simp only [recalculateBalance]
  split
  · exact ⟨w, hw, rfl, rfl, rfl, rfl, rfl, rfl⟩
  · refine ⟨_, List.mem_map_of_mem _ hw, ?_⟩
    by_cases h : w.id = wid <;> simp [sameExceptCurrent, h]

lemma foldl_recalc_shape (L : List String) (st : DBState) :
    ∀ w ∈ st.wallets, ∃ w' ∈ (L.foldl (fun s wid => recalculateBalance wid s) st).wallets,
      sameExceptCurrent w w' := by
  induction L generalizing st with
  | nil => intro w hw; exact ⟨w, hw, rfl, rfl, rfl, rfl, rfl, rfl⟩
  | cons a rest ih =>
    intro w hw
    obtain ⟨w1, hw1, hs1⟩ := recalc_shape a st w hw
    obtain ⟨w2, hw2, hs2⟩ := ih (recalculateBalance a st) w1 hw1
    exact ⟨w2, hw2, sameExceptCurrent_trans hs1 hs2⟩

-- ─── Claim C1 ────────────────────────────────────────────────────────────────

/-- C1: for every wallet, after any single ledger mutation
(createTransaction, updateTransaction, deleteTransaction, or updateWallet)
and after any sequence of such mutations, the stored `current_balance`
equals the stored `initial_balance` plus the sum of amounts of its live IN
transactions minus the sum of its live OUT transactions.  The hypotheses
are the schema's PRIMARY KEY constraints and the invariant holding of the
starting state (as it does for any state the store itself built). -/
theorem forward_invariant_preserved (st : DBState)
    (hwf : wf st) (hinv : balanceInvariant st) :
    (∀ m : Mutation, balanceInvariant (applyMutation m st)) ∧
    (∀ ms : List Mutation, balanceInvariant (applyMutations ms st)) :=
  ⟨fun m => applyMutation_invariant hwf hinv m,
   fun ms => applyMutations_invariant ms hwf hinv⟩

/-- The spec's §8 scenario state: one wallet, `initial_balance = 100000`. -/
def stScenario : DBState :=
  { wallets := [{ id := "w1", name := "Main", initial_balance := 100000,
                  current_balance := 100000, image_uri := none,
                  icon := some "Wallet",
                  created_at := "2025-01-01T00:00:00.000Z" }],
    transactions := [] }

/-- The spec's §8 scenario mutations: add IN 50000, add OUT 20000, edit the
OUT amount to 30000, then delete it. -/
def msScenario : List Mutation :=
  [Mutation.createTxn "t1" "w1" TxnType.IN 50000 none none "2025-01-02T00:00:00.000Z",
   Mutation.createTxn "t2" "w1" TxnType.OUT 20000 none none "2025-01-03T00:00:00.000Z",
   Mutation.updateTxn "t2" "w1" TxnType.OUT 30000 none none,
   Mutation.deleteTxn "t2"]

theorem forward_invariant_preserved_witness :
    wf stScenario ∧ balanceInvariant stScenario ∧
    balanceInvariant (applyMutations msScenario stScenario) :=
  ⟨by decide, by decide,
   (forward_invariant_preserved stScenario (by decide) (by decide)).2 msScenario⟩

-- ─── Claim C7 ────────────────────────────────────────────────────────────────

/-- C7: forward reconciliation is idempotent — calling `recalculateBalance`
twice in a row with no intervening mutation produces exactly the state the
first call produced (in particular `current_balance` is unchanged by the
second call). -/
theorem recalculateBalance_idempotent (walletId : String) (st : DBState) :
    recalculateBalance walletId (recalculateBalance walletId st) =
      recalculateBalance walletId st := by
  cases hf : st.wallets.find? (fun w => w.id = walletId) with
  | none =>
    have h1 : recalculateBalance walletId st = st := by
      simp only [recalculateBalance, hf]
    rw [h1]; exact h1
  | some w0 =>
    have hid0 : w0.id = walletId := by simpa using List.find?_some hf
    simp only [recalculateBalance, hf]
    rw [List.find?_map]
    have hpf : ((fun w : Wallet => decide (w.id = walletId)) ∘
        (fun x : Wallet => if x.id = walletId then
          { x with current_balance :=
              w0.initial_balance + sumAmount st.transactions walletId TxnType.IN -
                sumAmount st.transactions walletId TxnType.OUT }
          else x)) = (fun w : Wallet => decide (w.id = walletId)) := by
      funext x
      by_cases h : x.id = walletId <;> simp [h, Function.comp]
    rw [hpf, hf]
    simp only [Option.map_some']
    congr 1
    rw [List.map_map]
    apply List.map_congr_left
    intro x _
    by_cases h : x.id = walletId <;> simp [h, Function.comp, hid0]

lemma recalc_shape_rev (wid : String) (st : DBState) :
    ∀ w' ∈ (recalculateBalance wid st).wallets, ∃ w ∈ st.wallets,
      sameExceptCurrent w w' := by
  intro w' hw'
  simp only [recalculateBalance] at hw'
  split at hw'
  · exact ⟨w', hw', rfl, rfl, rfl, rfl, rfl, rfl⟩
  · simp only [List.mem_map] at hw'
    obtain ⟨x, hx, hfx⟩ := hw'
    refine ⟨x, hx, ?_⟩
    rw [← hfx]
    by_cases h : x.id = wid <;> simp [sameExceptCurrent, h]

-- ─── Claim C2 ────────────────────────────────────────────────────────────────

/-- C2: `updateWalletDirect(id, name, X)` stores
`initial_balance = X − ΣIN + ΣOUT` and `current_balance = X` exactly,
touches no transaction row, and the new row satisfies the forward formula
(so re-deriving the current balance from the new `initial_balance`
yields `X`). -/
theorem updateWalletDirect_inverse (st : DBState) (id name : String) (X : Int)
    (icon : Option String) (hw : ∃ w ∈ st.wallets, w.id = id) :
    (updateWalletDirect id name X icon st).transactions = st.transactions ∧
    (∃ w' ∈ (updateWalletDirect id name X icon st).wallets, w'.id = id) ∧
    ∀ w' ∈ (updateWalletDirect id name X icon st).wallets, w'.id = id →
      w'.initial_balance = X - sumAmount st.transactions id TxnType.IN
          + sumAmount st.transactions id TxnType.OUT ∧
      w'.current_balance = X ∧
      walletOk (updateWalletDirect id name X icon st).transactions w' := by
  obtain ⟨w, hwmem, hwid⟩ := hw
  refine ⟨rfl, ?_, ?_⟩
  · refine ⟨_, List.mem_map_of_mem _ hwmem, ?_⟩
    simp [hwid]
  · intro w' hw' hid
    simp only [updateWalletDirect, List.mem_map] at hw'
    obtain ⟨x, hx, hfx⟩ := hw'
    by_cases hxid : x.id = id
    · refine ⟨?_, ?_, ?_⟩
      · rw [← hfx]; simp [hxid]
      · rw [← hfx]; simp [hxid]
      · unfold walletOk
        rw [← hfx]
        simp only [updateWalletDirect]
        simp [hxid]
        ring
    · exfalso; apply hxid; rw [← hfx] at hid; simp [hxid] at hid

/-- The spec's §8 inverse scenario state: a wallet whose transactions sum
to ΣIN = 200000 and ΣOUT = 50000. -/
def stInverse : DBState :=
  { wallets := [{ id := "w1", name := "Main", initial_balance := 0,
                  current_balance := 150000, image_uri := none,
                  icon := some "Wallet",
                  created_at := "2025-01-01T00:00:00.000Z" }],
    transactions :=
      [{ id := "t1", wallet_id := "w1", ty := TxnType.IN, amount := 200000,
         reason := none, image_uri := none,
         created_at := "2025-01-02T00:00:00.000Z" },
       { id := "t2", wallet_id := "w1", ty := TxnType.OUT, amount := 50000,
         reason := none, image_uri := none,
         created_at := "2025-01-03T00:00:00.000Z" }] }

theorem updateWalletDirect_inverse_witness :
    (∀ w' ∈ (updateWalletDirect "w1" "Main" 500000 none stInverse).wallets,
      w'.initial_balance = 350000 ∧ w'.current_balance = 500000) ∧
    (∃ w' ∈ (updateWalletDirect "w1" "Main" 500000 none stInverse).wallets,
      w'.id = "w1") :=
  ⟨by decide,
   (updateWalletDirect_inverse stInverse "w1" "Main" 500000 none (by decide)).2.1⟩

-- ─── Claim C8 ────────────────────────────────────────────────────────────────

/-- C8: `deleteWallet(id)` removes the wallet row and (via the schema's
cascade) every transaction referencing it; `getTransactionsByWallet(id)`
afterwards returns the empty list; every other wallet row survives exactly
as stored — in particular no reconciliation touches any balance — and
every other transaction survives. -/
theorem deleteWallet_cascade (st : DBState) (id : String) :
    getTransactionsByWallet id none (deleteWallet id st) = [] ∧
    (∀ w' ∈ (deleteWallet id st).wallets, w'.id ≠ id) ∧
    (∀ w ∈ st.wallets, w.id ≠ id → w ∈ (deleteWallet id st).wallets) ∧
    (∀ w' ∈ (deleteWallet id st).wallets, w' ∈ st.wallets) ∧
    (∀ t ∈ st.transactions, t.wallet_id ≠ id → t ∈ (deleteWallet id st).transactions) ∧
    (∀ t' ∈ (deleteWallet id st).transactions, t' ∈ st.transactions ∧ t'.wallet_id ≠ id) := by
  refine ⟨?_, ?_, ?_, ?_, ?_, ?_⟩
  · simp only [getTransactionsByWallet, deleteWallet]
    have h0 : (st.transactions.filter fun t => ¬ t.wallet_id = id).filter
        (fun t => t.wallet_id = id) = [] := by
      rw [List.filter_eq_nil_iff]
      intro t ht
      have h2 := (List.mem_filter.mp ht).2
      simp only [decide_not, Bool.not_eq_true', decide_eq_false_iff_not] at h2
      simpa using h2
    rw [h0, List.mergeSort_nil]
  · intro w' hw'
    have := (List.mem_filter.mp hw').2
    simpa using this
  · intro w hw hne
    exact List.mem_filter.mpr ⟨hw, by simpa using hne⟩
  · intro w' hw'
    exact (List.mem_filter.mp hw').1
  · intro t ht hne
    exact List.mem_filter.mpr ⟨ht, by simpa using hne⟩
  · intro t' ht'
    have h1 := (List.mem_filter.mp ht').1
    have h2 := (List.mem_filter.mp ht').2
    exact ⟨h1, by simpa using h2⟩

-- ─── Claim C10 ───────────────────────────────────────────────────────────────

/-- C10: `updateWallet` with the optional `imageUri` and `icon` arguments
omitted (i.e. `none`) does not preserve the stored values: it overwrites
`image_uri` with null and `icon` with the default `'Wallet'`. -/
theorem updateWallet_resets_image_and_icon (st : DBState) (id name : String)
    (initialBalance : Int) (hw : ∃ w ∈ st.wallets, w.id = id) :
    (∃ w' ∈ (updateWallet id name initialBalance none none st).wallets, w'.id = id) ∧
    ∀ w' ∈ (updateWallet id name initialBalance none none st).wallets, w'.id = id →
      w'.image_uri = none ∧ w'.icon = some "Wallet" := by
  obtain ⟨w, hwmem, hwid⟩ := hw
  constructor
  · have hids : (updateWallet id name initialBalance none none st).wallets.map Wallet.id
        = st.wallets.map Wallet.id := by
      simp only [updateWallet]
      rw [recalc_wallets_map_id]
      apply map_preserves_map_id
      intro x; by_cases hx : x.id = id <;> simp [hx]
    have hmem : id ∈ (updateWallet id name initialBalance none none st).wallets.map Wallet.id := by
      rw [hids]
      exact hwid ▸ List.mem_map_of_mem _ hwmem
    exact List.mem_map.mp hmem
  · intro w' hw' hid
    obtain ⟨y, hy, hs⟩ := recalc_shape_rev id _ w' hw'
    simp only [List.mem_map] at hy
    obtain ⟨x, hx, hgx⟩ := hy
    by_cases hxid : x.id = id
    · rw [hs.2.2.2.1, hs.2.2.2.2.1, ← hgx]
      simp [hxid]
    · exfalso
      apply hxid
      rw [hs.1, ← hgx] at hid
      simp [hxid] at hid

/-- A wallet that previously had a picture and a non-default icon. -/
def stImage : DBState :=
  { wallets := [{ id := "w1", name := "Main", initial_balance := 100000,
                  current_balance := 100000,
                  image_uri := some "liquidmoney_images/wallet_123_abc.jpg",
                  icon := some "PiggyBank",
                  created_at := "2025-01-01T00:00:00.000Z" }],
    transactions := [] }

theorem updateWallet_resets_image_and_icon_witness :
    (∃ w ∈ stImage.wallets, w.id = "w1") ∧
    ∀ w' ∈ (updateWallet "w1" "Main" 100000 none none stImage).wallets,
      w'.id = "w1" →
      w'.image_uri = none ∧ w'.icon = some "Wallet" :=
  ⟨by decide,
   (updateWallet_resets_image_and_icon stImage "w1" "Main" 100000 (by decide)).2⟩

-- ─── Claim C3 ────────────────────────────────────────────────────────────────

/-- The function `importData` written out: the delete-all / insert-all steps reduce to
building the state from the document, and the reconciliation loop runs over
the inserted wallet ids. -/
lemma importData_eq (data : ExportData) (st : DBState) :
    importData data st =
      ((data.wallets.map fun w =>
          { w with icon := some (w.icon.getD "Wallet") }).map Wallet.id).foldl
        (fun s wid => recalculateBalance wid s)
        { wallets := data.wallets.map fun w =>
            { w with icon := some (w.icon.getD "Wallet") },
          transactions := data.transactions } := rfl

/-- C3: after `importData` completes, every imported wallet's
`current_balance` equals the forward formula applied to the document's
`initial_balance` and the imported transactions — whatever
`current_balance` the document carried is overwritten.  The hypotheses are
the conditions under which the INSERT loops complete (unique PRIMARY KEYs,
transactions referencing document wallets). -/
theorem importData_reconciles (data : ExportData) (st : DBState)
    (hndw : (data.wallets.map Wallet.id).Nodup)
    (_hndt : (data.transactions.map Txn.id).Nodup)
    (_hfk : ∀ t ∈ data.transactions, ∃ w ∈ data.wallets, t.wallet_id = w.id) :
    (importData data st).transactions = data.transactions ∧
    balanceInvariant (importData data st) ∧
    ∀ dw ∈ data.wallets, ∃ w' ∈ (importData data st).wallets,
      w'.id = dw.id ∧ w'.initial_balance = dw.initial_balance ∧
      w'.current_balance =
        dw.initial_balance + sumAmount data.transactions dw.id TxnType.IN
          - sumAmount data.transactions dw.id TxnType.OUT := by
  rw [importData_eq]
  set f : Wallet → Wallet :=
    fun w => { w with icon := some (w.icon.getD "Wallet") } with hf
  have hnd4 : walletIdsNodup
      { wallets := data.wallets.map f, transactions := data.transactions } := by
    unfold walletIdsNodup
    show ((data.wallets.map f).map Wallet.id).Nodup
    rw [map_preserves_map_id f Wallet.id data.wallets fun x => rfl]
    exact hndw
  refine ⟨?_, ?_, ?_⟩
  · rw [foldl_recalc_transactions]
  · intro w' hw'
    have hid : w'.id ∈ (data.wallets.map f).map Wallet.id := by
      have := List.mem_map_of_mem Wallet.id hw'
      rwa [foldl_recalc_map_id] at this
    have H := (foldl_recalc_ok _ _ hnd4 w' hw').1 hid
    rw [foldl_recalc_transactions]
    exact H
  · intro dw hdw
    have hmem4 : f dw ∈ data.wallets.map f := List.mem_map_of_mem f hdw
    obtain ⟨w', hw', hs⟩ := foldl_recalc_shape
      ((data.wallets.map f).map Wallet.id)
      { wallets := data.wallets.map f, transactions := data.transactions }
      (f dw) hmem4
    have hid : w'.id ∈ (data.wallets.map f).map Wallet.id := by
      have := List.mem_map_of_mem Wallet.id hw'
      rwa [foldl_recalc_map_id] at this
    have H := (foldl_recalc_ok _ _ hnd4 w' hw').1 hid
    have hsid : w'.id = dw.id := hs.1
    have hsinit : w'.initial_balance = dw.initial_balance := hs.2.2.1
    refine ⟨w', hw', hsid, hsinit, ?_⟩
    unfold walletOk at H
    rw [H, hsid, hsinit]

/-- An empty database to import into. -/
def dbEmpty : DBState := { wallets := [], transactions := [] }

/-- A document whose stored `current_balance` (999) disagrees with its own
`initial_balance` + transactions (100000 + 50000): the §8 import scenario. -/
def docBad : ExportData :=
  { wallets := [{ id := "w1", name := "Main", initial_balance := 100000,
                  current_balance := 999, image_uri := none,
                  icon := some "Wallet",
                  created_at := "2025-01-01T00:00:00.000Z" }],
    transactions :=
      [{ id := "t1", wallet_id := "w1", ty := TxnType.IN, amount := 50000,
         reason := none, image_uri := none,
         created_at := "2025-01-02T00:00:00.000Z" }] }

theorem importData_reconciles_witness :
    (∀ w' ∈ (importData docBad dbEmpty).wallets, w'.current_balance = 150000) ∧
    balanceInvariant (importData docBad dbEmpty) :=
  ⟨by decide,
   (importData_reconciles docBad dbEmpty (by decide) (by decide) (by decide)).2.1⟩

-- ─── Claim C5 ────────────────────────────────────────────────────────────────

/-- Filtering the updated ledger equals filtering the original one when
each row is either untouched (with the two filters agreeing on it) or
rejected by both sides. -/
lemma filter_map_update (updFn : Txn → Txn) (p q : Txn → Bool) (ts : List Txn)
    (h : ∀ u ∈ ts, (p (updFn u) = false ∧ q u = false) ∨ (updFn u = u ∧ p u = q u)) :
    (ts.map updFn).filter p = ts.filter q := by
  induction ts with
  | nil => rfl
  | cons a l ih =>
    have ih' := ih fun u hu => h u (List.mem_cons_of_mem a hu)
    rcases h a (List.mem_cons_self a l) with ⟨h1, h2⟩ | ⟨h1, h2⟩
    · rw [List.map_cons, List.filter_cons_of_neg (by simp [h1]),
        List.filter_cons_of_neg (by simp [h2]), ih']
    · rw [List.map_cons, h1]
      by_cases hpa : p a = true
      · rw [List.filter_cons_of_pos hpa, List.filter_cons_of_pos (h2 ▸ hpa), ih']
      · rw [List.filter_cons_of_neg (by simpa using hpa),
          List.filter_cons_of_neg (by simp [← h2]; simpa using hpa), ih']

/-- Updating the unique row with a given id splits any wallet/type sum into
the sum without that row plus the updated row's own contribution. -/
lemma sumAmount_update_split (updFn : Txn → Txn) (t : Txn)
    (hfix : ∀ u, ¬ u.id = t.id → updFn u = u) (wid : String) (ty0 : TxnType) :
    ∀ ts : List Txn, (ts.map Txn.id).Nodup → t ∈ ts →
      sumAmount (ts.map updFn) wid ty0 =
        sumAmount (ts.filter fun u => ¬ u.id = t.id) wid ty0 +
        (if (updFn t).wallet_id = wid ∧ (updFn t).ty = ty0 then (updFn t).amount else 0) := by
  intro ts
  induction ts with
  | nil => intro _ ht; cases ht
  | cons a l ih =>
    intro hnd ht
    rw [List.map_cons, sumAmount_cons]
    rcases List.mem_cons.mp ht with rfl | htl
    · have hnotl : ∀ u ∈ l, ¬ u.id = t.id := by
        intro u hu hc
        have : t.id ∈ l.map Txn.id := hc ▸ List.mem_map_of_mem Txn.id hu
        exact (List.nodup_cons.mp hnd).1 this
      have hmapl : l.map updFn = l := by
        rw [show l.map updFn = l.map (fun u => u) from
          List.map_congr_left fun u hu => hfix u (hnotl u hu)]
        exact List.map_id' l
      rw [List.filter_cons_of_neg (by simp), hmapl,
        List.filter_eq_self.mpr fun u hu => by simpa using hnotl u hu, add_comm]
    · have haid : ¬ a.id = t.id := by
        intro hc
        have : a.id ∈ l.map Txn.id := by
          rw [hc]; exact List.mem_map_of_mem Txn.id htl
        exact (List.nodup_cons.mp hnd).1 this
      rw [hfix a haid, List.filter_cons_of_pos (by simpa using haid), sumAmount_cons,
        ih (List.nodup_cons.mp hnd).2 htl, add_assoc]

/-- C5: editing a transaction of wallet A so that its `wallet_id` becomes a
different wallet B (possibly also changing type/amount) (1) puts the updated
row in B's ledger, (2) removes it from A's ledger — A's filtered ledger is
exactly the original one without that row — and (3) recomputes the stored
balances of both A and B so that each satisfies the forward formula over
the new ledger. -/
theorem updateTransaction_move (st : DBState) (B : String) (ty' : TxnType)
    (amount' : Int) (reason' imageUri' : Option String) (t : Txn)
    (hndw : walletIdsNodup st) (hndt : txnIdsNodup st)
    (ht : t ∈ st.transactions)
    (hAB : t.wallet_id ≠ B) (hB : ∃ w ∈ st.wallets, w.id = B) :
    ({ t with
        wallet_id := B
        ty := ty'
        amount := amount'
        reason := reason'
        image_uri := imageUri' } ∈
      (updateTransaction t.id B ty' amount' reason' imageUri' st).transactions.filter
        fun u => u.wallet_id = B) ∧
    ((updateTransaction t.id B ty' amount' reason' imageUri' st).transactions.filter
        (fun u => u.wallet_id = t.wallet_id) =
      st.transactions.filter fun u => u.wallet_id = t.wallet_id ∧ ¬ u.id = t.id) ∧
    (∀ w' ∈ (updateTransaction t.id B ty' amount' reason' imageUri' st).wallets,
      w'.id = t.wallet_id ∨ w'.id = B →
        walletOk (updateTransaction t.id B ty' amount' reason' imageUri' st).transactions w') := by
  simp only [updateTransaction]
  have hcond : ¬((st.transactions.any fun u => u.id = t.id) = true ∧
      ¬(st.wallets.any fun w => w.id = B) = true) := by
    rintro ⟨-, h2⟩
    obtain ⟨w, hw, hwid⟩ := hB
    exact h2 (List.any_eq_true.mpr ⟨w, hw, by simp [hwid]⟩)
  rw [if_neg hcond]
  have hfind : st.transactions.find? (fun u => u.id = t.id) = some t := by
    cases hf : st.transactions.find? (fun u => u.id = t.id) with
    | none =>
      exfalso
      have := List.find?_eq_none.mp hf t ht
      simp at this
    | some t0 =>
      have ht0mem : t0 ∈ st.transactions := List.mem_of_find?_eq_some hf
      have ht0id : t0.id = t.id := by simpa using List.find?_some hf
      rw [List.inj_on_of_nodup_map hndt ht0mem ht ht0id]
  rw [hfind]
  simp only [Option.map_some']
  rw [if_pos hAB]
  refine ⟨?_, ?_, ?_⟩
  · rw [recalc_transactions, recalc_transactions]
    refine List.mem_filter.mpr ⟨?_, by simp⟩
    exact List.mem_map.mpr ⟨t, ht, by simp⟩
  · rw [recalc_transactions, recalc_transactions]
    refine filter_map_update _ _ _ _ fun u hu => ?_
    by_cases hui : u.id = t.id
    · left
      have hut : u = t := List.inj_on_of_nodup_map hndt hu ht hui
      subst hut
      constructor
      · simp [hAB.symm]
      · simp
    · right
      exact ⟨if_neg hui, by simp [hui]⟩
  · intro w' hw' hcase
    rw [recalc_transactions, recalc_transactions]
    rcases hcase with hA | hBid
    · have H := recalc_target_ok
        (recalc_nodup (walletIdsNodup_set_transactions hndw _)) w' hw' hA
      rw [recalc_transactions] at H
      exact H
    · have hne : w'.id ≠ t.wallet_id := by
        rw [hBid]; exact fun hc => hAB hc.symm
      have hw2 := recalc_mem_of_ne hw' hne
      refine recalc_target_ok ?_ w' hw2 hBid
      exact hndw

/-- Two consistent wallets; `t1` is an IN 200 transaction of wallet w1. -/
def stMove : DBState :=
  { wallets := [{ id := "w1", name := "A", initial_balance := 1000,
                  current_balance := 1200, image_uri := none,
                  icon := some "Wallet",
                  created_at := "2025-01-01T00:00:00.000Z" },
                { id := "w2", name := "B", initial_balance := 500,
                  current_balance := 500, image_uri := none,
                  icon := some "Wallet",
                  created_at := "2025-01-01T00:00:01.000Z" }],
    transactions :=
      [{ id := "t1", wallet_id := "w1", ty := TxnType.IN, amount := 200,
         reason := none, image_uri := none,
         created_at := "2025-01-02T00:00:00.000Z" }] }

/-- The transaction that the move witness edits. -/
def tMove : Txn :=
  { id := "t1", wallet_id := "w1", ty := TxnType.IN, amount := 200,
    reason := none, image_uri := none,
    created_at := "2025-01-02T00:00:00.000Z" }

theorem updateTransaction_move_witness :
    ({ tMove with
        wallet_id := "w2"
        ty := TxnType.OUT
        amount := 150
        reason := none
        image_uri := none } ∈
      (updateTransaction tMove.id "w2" TxnType.OUT 150 none none stMove).transactions.filter
        fun u => u.wallet_id = "w2") ∧
    ((updateTransaction tMove.id "w2" TxnType.OUT 150 none none stMove).transactions.filter
        (fun u => u.wallet_id = tMove.wallet_id) =
      stMove.transactions.filter fun u => u.wallet_id = tMove.wallet_id ∧ ¬ u.id = tMove.id) :=
  ⟨(updateTransaction_move stMove "w2" TxnType.OUT 150 none none tMove
      (by decide) (by decide) (by decide) (by decide) (by decide)).1,
   (updateTransaction_move stMove "w2" TxnType.OUT 150 none none tMove
      (by decide) (by decide) (by decide) (by decide) (by decide)).2.1⟩

-- ─── Claim C6 ────────────────────────────────────────────────────────────────

/-- C6: a backup document whose `wallets` or `transactions` field is missing
or not an array makes `importBackup` raise the structural error before any
destructive step: the database and the image store are returned exactly as
they were. -/
theorem importBackup_rejects_malformed (raw : RawBackup) (st : DBState)
    (fs : FileSys) (h : raw.wallets = none ∨ raw.transactions = none) :
    ∃ e, importBackup raw st fs = (st, fs, Except.error e) := by
  rcases h with hw | ht
  · exact ⟨"File backup khong hop le: thieu danh sach vi.",
      by simp only [importBackup, hw]⟩
  · cases hw : raw.wallets with
    | none =>
      exact ⟨"File backup khong hop le: thieu danh sach vi.",
        by simp only [importBackup, hw]⟩
    | some bws =>
      exact ⟨"File backup khong hop le: thieu danh sach giao dich.",
        by simp only [importBackup, hw, ht]⟩

theorem importBackup_rejects_malformed_witness :
    ∃ e, importBackup { wallets := none, transactions := some [] } dbEmpty []
      = (dbEmpty, [], Except.error e) :=
  importBackup_rejects_malformed
    { wallets := none, transactions := some [] } dbEmpty [] (Or.inl rfl)

-- ─── Claim C9 ────────────────────────────────────────────────────────────────

/-- Folding the `GROUP BY type` rows into the `(totalIn, totalOut)`
accumulator yields exactly the two groups' sums (`0` for a type with no
rows). -/
lemma groupRows_fold (ins outs : List Txn) :
    (((if ins.isEmpty then [] else [(TxnType.IN, (ins.map Txn.amount).sum)]) ++
      (if outs.isEmpty then [] else [(TxnType.OUT, (outs.map Txn.amount).sum)])).foldl
      (fun (acc : Int × Int) row =>
        match row.1 with
        | TxnType.IN => (row.2, acc.2)
        | TxnType.OUT => (acc.1, row.2))
      (0, 0)) = ((ins.map Txn.amount).sum, (outs.map Txn.amount).sum) := by
  by_cases h1 : ins.isEmpty
  · rw [List.isEmpty_iff] at h1
    subst h1
    by_cases h2 : outs.isEmpty
    · rw [List.isEmpty_iff] at h2
      subst h2
      rfl
    · simp [h2]
  · by_cases h2 : outs.isEmpty
    · rw [List.isEmpty_iff] at h2
      subst h2
      simp [h1]
    · simp [h1, h2]

/-- C9: `getMonthlyStats` returns one entry for each of the trailing six
calendar months anchored at `(year, month)`, oldest to newest (the entry at
position `k` is the month with absolute index `year*12 + month - 5 + k`);
each entry's `totalIn`/`totalOut` are the sums of the matching
transactions' amounts by type over the half-open window
`[monthStart, nextMonthStart)`; and a month with no transactions yields
`{totalIn := 0, totalOut := 0}`. -/
theorem getMonthlyStats_spec (year month : Nat) (walletId : Option String)
    (st : DBState) (hy : 1 ≤ year) :
    (getMonthlyStats year month walletId st).length = 6 ∧
    (∀ k, k < 6 →
      (getMonthlyStats year month walletId st)[k]? =
        some { month := monthKeyOfIdx (year * 12 + month - 5 + k),
               totalIn := (((windowTxns (year * 12 + month - 5 + k) walletId st).filter
                   fun t => t.ty = TxnType.IN).map Txn.amount).sum,
               totalOut := (((windowTxns (year * 12 + month - 5 + k) walletId st).filter
                   fun t => t.ty = TxnType.OUT).map Txn.amount).sum }) ∧
    (∀ k, k < 6 → windowTxns (year * 12 + month - 5 + k) walletId st = [] →
      (getMonthlyStats year month walletId st)[k]? =
        some { month := monthKeyOfIdx (year * 12 + month - 5 + k),
               totalIn := 0, totalOut := 0 }) := by
  have hidx : ∀ k, k < 6 → year * 12 + month - (5 - k) = year * 12 + month - 5 + k := by
    intro k hk
    omega
  have hmain : ∀ k, k < 6 →
      (getMonthlyStats year month walletId st)[k]? =
        some { month := monthKeyOfIdx (year * 12 + month - 5 + k),
               totalIn := (((windowTxns (year * 12 + month - 5 + k) walletId st).filter
                   fun t => t.ty = TxnType.IN).map Txn.amount).sum,
               totalOut := (((windowTxns (year * 12 + month - 5 + k) walletId st).filter
                   fun t => t.ty = TxnType.OUT).map Txn.amount).sum } := by
    intro k hk
    simp only [getMonthlyStats, List.getElem?_map, List.getElem?_range, hk,
      if_pos, Option.map_some']
    rw [hidx k hk, groupRows_fold]
  refine ⟨?_, hmain, ?_⟩
  · simp [getMonthlyStats]
  · intro k hk hempty
    rw [hmain k hk, hempty]
    rfl

theorem getMonthlyStats_spec_witness :
    1 ≤ 2026 ∧ (getMonthlyStats 2026 9 none stMove).length = 6 :=
  ⟨by decide, (getMonthlyStats_spec 2026 9 none stMove (by decide)).1⟩

-- ─── Claim C4 ────────────────────────────────────────────────────────────────

/-- The export-then-import pipeline of the backup codec: build the backup
document from the live database and image store, parse it back, and run
`importBackup` on the same starting state. -/
def roundTrip (ea : String) (st : DBState) (fs : FileSys) :
    DBState × FileSys × Except String Bool :=
  importBackup (rawOfBackup (exportBackup ea st fs)) st fs

/-- The wallet-image restore loop only threads the file store through; the
produced wallet list rewrites each `image_uri` to the deterministic
`wallet_{id}.jpg` path (or null). -/
lemma importWalletImages_snd (l : List BackupWallet) (fs : FileSys) :
    (importWalletImages l fs).2 = l.map fun bw =>
      { bw.toWallet with
        image_uri := match bw.image_base64 with
          | some _ => some (IMAGE_DIR ++ "/" ++ ("wallet_" ++ bw.id ++ ".jpg"))
          | none => none } := by
  induction l generalizing fs with
  | nil => rfl
  | cons bw rest ih =>
    cases hb : bw.image_base64 with
    | none => simp [importWalletImages, hb, ih]
    | some b64 => simp [importWalletImages, hb, ih, base64ToFile]

/-- Same for the transaction-image restore loop (`txn_{id}.jpg`). -/
lemma importTxnImages_snd (l : List BackupTxn) (fs : FileSys) :
    (importTxnImages l fs).2 = l.map fun bt =>
      { bt.toTxn with
        image_uri := match bt.image_base64 with
          | some _ => some (IMAGE_DIR ++ "/" ++ ("txn_" ++ bt.id ++ ".jpg"))
          | none => none } := by
  induction l generalizing fs with
  | nil => rfl
  | cons bt rest ih =>
    cases hb : bt.image_base64 with
    | none => simp [importTxnImages, hb, ih]
    | some b64 => simp [importTxnImages, hb, ih, base64ToFile]

/-- Sums are blind to fields other than `wallet_id`, `ty`, `amount`. -/
lemma sumAmount_map_fields (f : Txn → Txn) (ts : List Txn) (wid : String)
    (ty : TxnType) (hw : ∀ t, (f t).wallet_id = t.wallet_id)
    (hty : ∀ t, (f t).ty = t.ty) (ha : ∀ t, (f t).amount = t.amount) :
    sumAmount (ts.map f) wid ty = sumAmount ts wid ty := by
  induction ts with
  | nil => rfl
  | cons a l ih =>
    rw [List.map_cons, sumAmount_cons, sumAmount_cons, ih, hw, hty, ha]

/-- A dataset whose only wallet carries an image: the file is at an
arbitrary picker-given path. -/
def stC4 : DBState :=
  { wallets := [{ id := "w1", name := "Main", initial_balance := 100000,
                  current_balance := 100000,
                  image_uri := some "tmp/picked.jpg",
                  icon := some "Wallet",
                  created_at := "2025-01-01T00:00:00.000Z" }],
    transactions := [] }

/-- The image store holding that wallet's picture. -/
def fsC4 : FileSys := [("tmp/picked.jpg", "QkFTRTY0")]

/-- C4 as stated is false: on this non-empty dataset the round trip does
not reproduce the wallet with equal field values — `image_uri` is rewritten
to the deterministic `liquidmoney_images/wallet_w1.jpg` path, not kept. -/
theorem roundtrip_counterexample :
    ¬ (∀ w ∈ stC4.wallets,
        ∃ w' ∈ (roundTrip "2025-06-01T00:00:00.000Z" stC4 fsC4).1.wallets,
          w'.id = w.id ∧ w' = w) := by
  have hms : stC4.wallets.mergeSort
      (fun a b => a.created_at ≤ b.created_at) = stC4.wallets :=
    List.perm_singleton.mp (List.mergeSort_perm stC4.wallets _)
  have hmt : stC4.transactions.mergeSort
      (fun a b => a.created_at ≤ b.created_at) = stC4.transactions :=
    List.mergeSort_nil
  intro h
  obtain ⟨w', hw', hid, heq⟩ := h _ (List.mem_cons_self _ _)
  subst heq
  simp only [roundTrip, importBackup, rawOfBackup, exportBackup, getExportData] at hw'
  rw [hms, hmt] at hw'
  revert hw'
  decide

/-- How the round trip transforms one wallet row: only `image_uri` changes —
to the deterministic restored path when the export carried an image payload
for it, and to null otherwise. -/
def restoreWalletRow (fs : FileSys) (w : Wallet) : Wallet :=
  { w with
    image_uri :=
      match (match w.image_uri with
             | some uri => fileToBase64 fs uri
             | none => none) with
      | some _ => some (IMAGE_DIR ++ "/" ++ ("wallet_" ++ w.id ++ ".jpg"))
      | none => none }

/-- Same for one transaction row (`txn_{id}.jpg`). -/
def restoreTxnRow (fs : FileSys) (t : Txn) : Txn :=
  { t with
    image_uri :=
      match (match t.image_uri with
             | some uri => fileToBase64 fs uri
             | none => none) with
      | some _ => some (IMAGE_DIR ++ "/" ++ ("txn_" ++ t.id ++ ".jpg"))
      | none => none }

/-- What the backup codec hands to `importData` on an export/import round
trip: both tables in export order, rows restored by the functions above. -/
def restoredDoc (st : DBState) (fs : FileSys) : ExportData :=
  { wallets := (st.wallets.mergeSort fun a b => a.created_at ≤ b.created_at).map
      (restoreWalletRow fs),
    transactions := (st.transactions.mergeSort fun a b => a.created_at ≤ b.created_at).map
      (restoreTxnRow fs) }

lemma roundTrip_trd (ea : String) (st : DBState) (fs : FileSys) :
    (roundTrip ea st fs).2.2 = Except.ok true := rfl

lemma roundTrip_fst (ea : String) (st : DBState) (fs : FileSys) :
    (roundTrip ea st fs).1 = importData (restoredDoc st fs) st := by
  rw [show (roundTrip ea st fs).1 = importData
      { wallets := (importWalletImages (exportBackup ea st fs).wallets
          (clearImageDirectory fs)).2,
        transactions := (importTxnImages (exportBackup ea st fs).transactions
          (importWalletImages (exportBackup ea st fs).wallets
            (clearImageDirectory fs)).1).2 } st from rfl]
  rw [importWalletImages_snd, importTxnImages_snd]
  congr 1
  unfold restoredDoc
  congr 1
  · show ((exportBackup ea st fs).wallets).map _ = _
    simp only [exportBackup]
    rw [List.map_map]
    exact List.map_congr_left fun w _ => rfl
  · show ((exportBackup ea st fs).transactions).map _ = _
    simp only [exportBackup]
    rw [List.map_map]
    exact List.map_congr_left fun t _ => rfl

/-- After `importData` the transaction table is the document's, verbatim. -/
lemma importData_transactions (data : ExportData) (st : DBState) :
    (importData data st).transactions = data.transactions := by
  rw [importData_eq, foldl_recalc_transactions]

/-- After `importData` the wallet ids are the document's, in order. -/
lemma importData_wallet_ids (data : ExportData) (st : DBState) :
    (importData data st).wallets.map Wallet.id = data.wallets.map Wallet.id := by
  rw [importData_eq, foldl_recalc_map_id]
  exact map_preserves_map_id _ _ _ fun x => rfl

/-- Every document wallet resurfaces after `importData` with all its fields
intact except `icon` (defaulted when null) and `current_balance`
(recomputed by the reconciliation loop). -/
lemma importData_shape (data : ExportData) (st : DBState)
    (hndw : (data.wallets.map Wallet.id).Nodup) :
    ∀ dw ∈ data.wallets, ∃ w' ∈ (importData data st).wallets,
      w'.id = dw.id ∧ w'.name = dw.name ∧ w'.initial_balance = dw.initial_balance ∧
      w'.image_uri = dw.image_uri ∧ w'.icon = some (dw.icon.getD "Wallet") ∧
      w'.created_at = dw.created_at ∧
      w'.current_balance = dw.initial_balance
        + sumAmount data.transactions dw.id TxnType.IN
        - sumAmount data.transactions dw.id TxnType.OUT := by
  rw [importData_eq]
  set f : Wallet → Wallet :=
    fun w => { w with icon := some (w.icon.getD "Wallet") } with hf
  have hnd4 : walletIdsNodup
      { wallets := data.wallets.map f, transactions := data.transactions } := by
    unfold walletIdsNodup
    show ((data.wallets.map f).map Wallet.id).Nodup
    rw [map_preserves_map_id f Wallet.id data.wallets fun x => rfl]
    exact hndw
  intro dw hdw
  have hmem4 : f dw ∈ data.wallets.map f := List.mem_map_of_mem f hdw
  obtain ⟨w', hw', hs⟩ := foldl_recalc_shape
    ((data.wallets.map f).map Wallet.id)
    { wallets := data.wallets.map f, transactions := data.transactions }
    (f dw) hmem4
  have hid : w'.id ∈ (data.wallets.map f).map Wallet.id := by
    have := List.mem_map_of_mem Wallet.id hw'
    rwa [foldl_recalc_map_id] at this
  have H := (foldl_recalc_ok _ _ hnd4 w' hw').1 hid
  have h1 : w'.id = dw.id := hs.1
  have h2 : w'.name = dw.name := hs.2.1
  have h3 : w'.initial_balance = dw.initial_balance := hs.2.2.1
  have h4 : w'.image_uri = dw.image_uri := hs.2.2.2.1
  have h5 : w'.icon = some (dw.icon.getD "Wallet") := hs.2.2.2.2.1
  have h6 : w'.created_at = dw.created_at := hs.2.2.2.2.2
  refine ⟨w', hw', h1, h2, h3, h4, h5, h6, ?_⟩
  unfold walletOk at H
  rw [H, h1, h3]

/-- C4, amended: the round trip reproduces the same sets of wallets and
transactions matched by id, with every field preserved except `image_uri`,
which is not preserved (a null `image_uri` does stay null), and with
identical `current_balance` values after the post-import reconciliation.
The hypotheses are the schema constraints, the forward invariant, and
non-null icons — all guaranteed for any dataset the ledger store built. -/
theorem roundtrip_amended (ea : String) (st : DBState) (fs : FileSys)
    (hndw : walletIdsNodup st) (_hndt : txnIdsNodup st)
    (hinv : balanceInvariant st)
    (hicon : ∀ w ∈ st.wallets, w.icon ≠ none)
    (_hfk : ∀ t ∈ st.transactions, ∃ w ∈ st.wallets, t.wallet_id = w.id)
    (_hne : st.wallets ≠ []) :
    (roundTrip ea st fs).2.2 = Except.ok true ∧
    (∀ w ∈ st.wallets, ∃ w' ∈ (roundTrip ea st fs).1.wallets,
      w'.id = w.id ∧ w'.name = w.name ∧ w'.initial_balance = w.initial_balance ∧
      w'.current_balance = w.current_balance ∧ w'.icon = w.icon ∧
      w'.created_at = w.created_at ∧ (w.image_uri = none → w'.image_uri = none)) ∧
    (∀ w' ∈ (roundTrip ea st fs).1.wallets, ∃ w ∈ st.wallets, w.id = w'.id) ∧
    (∀ t ∈ st.transactions, ∃ t' ∈ (roundTrip ea st fs).1.transactions,
      t'.id = t.id ∧ t'.wallet_id = t.wallet_id ∧ t'.ty = t.ty ∧
      t'.amount = t.amount ∧ t'.reason = t.reason ∧ t'.created_at = t.created_at ∧
      (t.image_uri = none → t'.image_uri = none)) ∧
    (∀ t' ∈ (roundTrip ea st fs).1.transactions, ∃ t ∈ st.transactions, t.id = t'.id) := by
  have hpW : (st.wallets.mergeSort fun a b => a.created_at ≤ b.created_at).Perm
      st.wallets := List.mergeSort_perm st.wallets _
  have hpT : (st.transactions.mergeSort fun a b => a.created_at ≤ b.created_at).Perm
      st.transactions := List.mergeSort_perm st.transactions _
  have hdocIds : (restoredDoc st fs).wallets.map Wallet.id =
      (st.wallets.mergeSort fun a b => a.created_at ≤ b.created_at).map Wallet.id := by
    unfold restoredDoc
    exact map_preserves_map_id _ _ _ fun x => rfl
  have hndDoc : ((restoredDoc st fs).wallets.map Wallet.id).Nodup := by
    rw [hdocIds]
    exact ((hpW.map Wallet.id).nodup_iff).mpr hndw
  have hsum : ∀ wid ty, sumAmount (restoredDoc st fs).transactions wid ty
      = sumAmount st.transactions wid ty := by
    intro wid ty
    show sumAmount ((st.transactions.mergeSort _).map (restoreTxnRow fs)) wid ty = _
    rw [sumAmount_map_fields (restoreTxnRow fs)
      (st.transactions.mergeSort fun a b => a.created_at ≤ b.created_at) wid ty
      (fun t => rfl) (fun t => rfl) (fun t => rfl)]
    exact sumAmount_perm hpT wid ty
  refine ⟨roundTrip_trd ea st fs, ?_, ?_, ?_, ?_⟩
  · intro w hw
    have hws : w ∈ st.wallets.mergeSort fun a b => a.created_at ≤ b.created_at :=
      hpW.mem_iff.mpr hw
    have hdw : restoreWalletRow fs w ∈ (restoredDoc st fs).wallets :=
      List.mem_map_of_mem _ hws
    obtain ⟨w', hw', h1, h2, h3, h4, h5, h6, h7⟩ :=
      importData_shape (restoredDoc st fs) st hndDoc (restoreWalletRow fs w) hdw
    obtain ⟨s, hsi⟩ : ∃ s, w.icon = some s := by
      cases hc : w.icon with
      | none => exact absurd hc (hicon w hw)
      | some s => exact ⟨s, rfl⟩
    have h1' : w'.id = w.id := h1
    have h2' : w'.name = w.name := h2
    have h3' : w'.initial_balance = w.initial_balance := h3
    have h5' : w'.icon = some (w.icon.getD "Wallet") := h5
    have h6' : w'.created_at = w.created_at := h6
    have h7' : w'.current_balance = w.initial_balance
        + sumAmount (restoredDoc st fs).transactions w.id TxnType.IN
        - sumAmount (restoredDoc st fs).transactions w.id TxnType.OUT := h7
    refine ⟨w', by rw [roundTrip_fst]; exact hw', h1', h2', h3', ?_, ?_, h6', ?_⟩
    · rw [h7', hsum, hsum]
      exact (hinv w hw).symm
    · rw [h5', hsi]
      rfl
    · intro hnone
      have h4' : w'.image_uri = (restoreWalletRow fs w).image_uri := h4
      rw [h4']
      simp [restoreWalletRow, hnone]
  · intro w' hw'
    rw [roundTrip_fst] at hw'
    have hmem : w'.id ∈ (importData (restoredDoc st fs) st).wallets.map Wallet.id :=
      List.mem_map_of_mem _ hw'
    rw [importData_wallet_ids, hdocIds] at hmem
    obtain ⟨x, hx, hxid⟩ := List.mem_map.mp hmem
    exact ⟨x, hpW.mem_iff.mp hx, hxid⟩
  · intro t ht
    have hts : t ∈ st.transactions.mergeSort fun a b => a.created_at ≤ b.created_at :=
      hpT.mem_iff.mpr ht
    refine ⟨restoreTxnRow fs t, ?_, rfl, rfl, rfl, rfl, rfl, rfl, ?_⟩
    · rw [roundTrip_fst, importData_transactions]
      exact List.mem_map_of_mem _ hts
    · intro hnone
      simp [restoreTxnRow, hnone]
  · intro t' ht'
    rw [roundTrip_fst, importData_transactions] at ht'
    obtain ⟨u, hu, huq⟩ := List.mem_map.mp ht'
    refine ⟨u, hpT.mem_iff.mp hu, ?_⟩
    rw [← huq]
    rfl

/-- A one-wallet, one-transaction dataset (with no images) for the amended
round-trip theorem. -/
def stRound : DBState :=
  { wallets := [{ id := "w1", name := "Main", initial_balance := 100000,
                  current_balance := 150000, image_uri := none,
                  icon := some "Wallet",
                  created_at := "2025-01-01T00:00:00.000Z" }],
    transactions :=
      [{ id := "t1", wallet_id := "w1", ty := TxnType.IN, amount := 50000,
         reason := some "salary", image_uri := none,
         created_at := "2025-01-02T00:00:00.000Z" }] }

theorem roundtrip_amended_witness :
    (roundTrip "2025-06-01T00:00:00.000Z" stRound []).2.2 = Except.ok true ∧
    ∀ w ∈ stRound.wallets,
      ∃ w' ∈ (roundTrip "2025-06-01T00:00:00.000Z" stRound []).1.wallets,
        w'.id = w.id ∧ w'.name = w.name ∧ w'.initial_balance = w.initial_balance ∧
        w'.current_balance = w.current_balance ∧ w'.icon = w.icon ∧
        w'.created_at = w.created_at ∧ (w.image_uri = none → w'.image_uri = none) :=
  ⟨(roundtrip_amended "2025-06-01T00:00:00.000Z" stRound [] (by decide) (by decide)
      (by decide) (by decide) (by decide) (by decide)).1,
   (roundtrip_amended "2025-06-01T00:00:00.000Z" stRound [] (by decide) (by decide)
      (by decide) (by decide) (by decide) (by decide)).2.1⟩

end LiquidMoney
